import Mathlib

/-!
Shallow embedding of the hyperbolic-isometry engine
(`src/sage/geometry/hyperbolic_space/hyperbolic_isometry.py`) and of the
Lie-algebra `is_abelian` contract (`src/sage/categories/lie_algebras.py`),
together with theorems settling the frozen claims about them.

The UHP-model formulas (classification, translation length, fixed points)
operate on real 2x2 matrices; we embed those as a four-entry structure over
`ℝ` and translate each method body branch by branch.
-/

namespace Sage

/-- Real 2x2 matrix with entries `[[a, b], [c, d]]`, the matrix type on which
the UHP-model methods of `HyperbolicIsometryUHP` operate. -/
structure Mat2 where
  a : ℝ
  b : ℝ
  c : ℝ
  d : ℝ

namespace Mat2

/-- Determinant `a*d - b*c` of a 2x2 matrix (host `A.det()`). -/
def det (M : Mat2) : ℝ := M.a * M.d - M.b * M.c

/-- Trace `a + d` of a 2x2 matrix (host `A.trace()`). -/
def trace (M : Mat2) : ℝ := M.a + M.d

/-- Entrywise scalar multiple; `A / t` in the source is `smul (1/t) A`. -/
def smul (t : ℝ) (M : Mat2) : Mat2 := ⟨t * M.a, t * M.b, t * M.c, t * M.d⟩

theorem ext_entries {M N : Mat2} (ha : M.a = N.a) (hb : M.b = N.b)
    (hc : M.c = N.c) (hd : M.d = N.d) : M = N := by
  cases M; cases N; simp_all

theorem det_smul (t : ℝ) (M : Mat2) : (smul t M).det = t ^ 2 * M.det := by
  simp only [smul, det]; ring

theorem trace_smul (t : ℝ) (M : Mat2) : (smul t M).trace = t * M.trace := by
  simp only [smul, trace]; ring

theorem smul_one (M : Mat2) : smul 1 M = M := by
  cases M; simp [smul]

theorem smul_smul (s t : ℝ) (M : Mat2) : smul s (smul t M) = smul (s * t) M := by
  cases M; simp only [smul]; apply ext_entries <;> dsimp <;> ring

end Mat2

/-- Modelled from the spec: the fixed numeric tolerance `EPSILON`, imported by
the source from `hyperbolic_constants` (a module not among the sources); the
spec only requires it to be a fixed small positive tolerance, and the claims
are all stated relative to it. -/
noncomputable def EPSILON : ℝ := 1 / 10 ^ 9

theorem EPSILON_pos : 0 < EPSILON := by norm_num [EPSILON]

theorem EPSILON_lt_one : EPSILON < 1 := by norm_num [EPSILON]

/-- The normalization `A = A / (abs(A.det()).sqrt())` performed at the top of
`HyperbolicIsometryUHP.classification` (lines 707-708). -/
noncomputable def normalizeUHP (A : Mat2) : Mat2 :=
  Mat2.smul (1 / Real.sqrt |A.det|) A

/-- The near-identity test `tf` of `classification` (lines 712-713):
`(a[0]-1)^2 + a[1]^2 + a[2]^2 + (a[3]-1)^2 < EPSILON` on the normalized
matrix, i.e. squared entrywise distance to the identity below `EPSILON`. -/
noncomputable def nearIdentity (A : Mat2) : Prop :=
  (A.a - 1) ^ 2 + A.b ^ 2 + A.c ^ 2 + (A.d - 1) ^ 2 < EPSILON

noncomputable instance (A : Mat2) : Decidable (nearIdentity A) := by
  unfold nearIdentity; infer_instance

/-- Error raised by the residual branch of `classification` (line 725):
`ValueError("something went wrong with classification: ...")`. -/
inductive ClsError where
  | somethingWentWrong
deriving DecidableEq

/-- Branch structure of `HyperbolicIsometryUHP.classification` (lines 707-731)
applied to the already-normalized matrix `A`; `tau = abs(A.trace())`. -/
noncomputable def clsCore (A : Mat2) : Except ClsError String :=
  let tau : ℝ := |A.trace|
  if 0 < A.det then
    if nearIdentity A then .ok "identity"
    else if tau - 2 < -EPSILON then .ok "elliptic"
    else if tau - 2 > -EPSILON ∧ tau - 2 < EPSILON then .ok "parabolic"
    else if tau - 2 > EPSILON then .ok "hyperbolic"
    else .error .somethingWentWrong
  else
    if tau < EPSILON then .ok "reflection"
    else .ok "orientation-reversing hyperbolic"

/-- Embedding of `HyperbolicIsometryUHP.classification` (lines 676-731): the
matrix is normalized by `sqrt(abs(det))` and then classified by the
trace/determinant branches of `clsCore`. -/
noncomputable def classification (A : Mat2) : Except ClsError String :=
  clsCore (normalizeUHP A)

theorem normalizeUHP_of_abs_det_one {A : Mat2} (h : |A.det| = 1) :
    normalizeUHP A = A := by
  unfold normalizeUHP
  rw [h, Real.sqrt_one, div_one, Mat2.smul_one]

theorem normalizeUHP_det (A : Mat2) :
    (normalizeUHP A).det = A.det / |A.det| := by
  unfold normalizeUHP
  rw [Mat2.det_smul, div_pow, one_pow, Real.sq_sqrt (abs_nonneg _)]
  ring

theorem normalizeUHP_det_eq_one {A : Mat2} (h : 0 < (normalizeUHP A).det) :
    (normalizeUHP A).det = 1 := by
  rw [normalizeUHP_det] at h ⊢
  rcases lt_trichotomy A.det 0 with hd | hd | hd
  · rw [abs_of_neg hd] at h
    rw [div_neg, div_self hd.ne] at h
    norm_num at h
  · simp [hd] at h
  · rw [abs_of_pos hd]
    exact div_self hd.ne'

theorem clsCore_identity {M : Mat2} (h1 : 0 < M.det) (h2 : nearIdentity M) :
    clsCore M = .ok "identity" := by
  simp only [clsCore]
  rw [if_pos h1, if_pos h2]

theorem clsCore_elliptic {M : Mat2} (h1 : 0 < M.det) (h2 : ¬ nearIdentity M)
    (h3 : |M.trace| - 2 < -EPSILON) : clsCore M = .ok "elliptic" := by
  simp only [clsCore]
  rw [if_pos h1, if_neg h2, if_pos h3]

theorem clsCore_parabolic {M : Mat2} (h1 : 0 < M.det) (h2 : ¬ nearIdentity M)
    (h3 : -EPSILON < |M.trace| - 2) (h4 : |M.trace| - 2 < EPSILON) :
    clsCore M = .ok "parabolic" := by
  simp only [clsCore]
  rw [if_pos h1, if_neg h2, if_neg (by linarith : ¬ |M.trace| - 2 < -EPSILON),
    if_pos ⟨h3, h4⟩]

theorem clsCore_hyperbolic {M : Mat2} (h1 : 0 < M.det) (h2 : ¬ nearIdentity M)
    (h3 : EPSILON < |M.trace| - 2) : clsCore M = .ok "hyperbolic" := by
  have hE := EPSILON_pos
  simp only [clsCore]
  rw [if_pos h1, if_neg h2, if_neg (by linarith : ¬ |M.trace| - 2 < -EPSILON),
    if_neg (by rintro ⟨-, h⟩; linarith), if_pos h3]

theorem clsCore_reflection {M : Mat2} (h1 : ¬ 0 < M.det)
    (h2 : |M.trace| < EPSILON) : clsCore M = .ok "reflection" := by
  simp only [clsCore]
  rw [if_neg h1, if_pos h2]

theorem clsCore_or_hyperbolic {M : Mat2} (h1 : ¬ 0 < M.det)
    (h2 : ¬ |M.trace| < EPSILON) :
    clsCore M = .ok "orientation-reversing hyperbolic" := by
  simp only [clsCore]
  rw [if_neg h1, if_neg h2]

/-- A normalized matrix of determinant 1 whose absolute trace exceeds
`2 + EPSILON` cannot pass the near-identity test: with `det M = 1` the
identity of `u + v = b*c - u*v` (for `u = a-1`, `v = d-1`) bounds `|trace|`
by `2 + EPSILON/2`. -/
theorem not_nearIdentity_of_large_trace {M : Mat2} (hdet : M.det = 1)
    (htr : 2 + EPSILON < |M.trace|) : ¬ nearIdentity M := by
  intro hnear
  unfold nearIdentity at hnear
  unfold Mat2.det at hdet
  unfold Mat2.trace at htr
  simp only [EPSILON] at hnear htr
  rcases lt_abs.mp htr with h | h
  · nlinarith [sq_nonneg (M.b - M.c), sq_nonneg ((M.a - 1) + (M.d - 1)),
      sq_nonneg ((M.a - 1) - (M.d - 1))]
  · nlinarith [sq_nonneg ((M.a - 1) - (M.d - 1)),
      sq_nonneg ((M.a - 1) + (M.d - 1))]

/-- C2: the six classification branches of `HyperbolicIsometryUHP.classification`.
For a 2x2 UHP matrix `A` with nonzero determinant and `M = A / sqrt(|det A|)`,
`tau = |trace M|`: with `det M > 0`, a matrix within `EPSILON` of the identity
is classified `identity`; otherwise `tau < 2 - EPSILON` gives `elliptic`,
`|tau - 2| < EPSILON` gives `parabolic`, and `tau > 2 + EPSILON` gives
`hyperbolic` (the near-identity test cannot fire there); with `det M < 0`,
`tau < EPSILON` gives `reflection` and otherwise
`orientation-reversing hyperbolic`. -/
theorem classification_cases (A : Mat2) (hA : A.det ≠ 0) :
    (0 < (normalizeUHP A).det → nearIdentity (normalizeUHP A) →
      classification A = .ok "identity") ∧
    (0 < (normalizeUHP A).det → ¬ nearIdentity (normalizeUHP A) →
      |(normalizeUHP A).trace| < 2 - EPSILON →
      classification A = .ok "elliptic") ∧
    (0 < (normalizeUHP A).det → ¬ nearIdentity (normalizeUHP A) →
      abs (|(normalizeUHP A).trace| - 2) < EPSILON →
      classification A = .ok "parabolic") ∧
    (0 < (normalizeUHP A).det → 2 + EPSILON < |(normalizeUHP A).trace| →
      classification A = .ok "hyperbolic") ∧
    ((normalizeUHP A).det < 0 → |(normalizeUHP A).trace| < EPSILON →
      classification A = .ok "reflection") ∧
    ((normalizeUHP A).det < 0 → EPSILON ≤ |(normalizeUHP A).trace| →
      classification A = .ok "orientation-reversing hyperbolic") := by
  refine ⟨?_, ?_, ?_, ?_, ?_, ?_⟩
  · intro h1 h2
    exact clsCore_identity h1 h2
  · intro h1 h2 h3
    exact clsCore_elliptic h1 h2 (by linarith)
  · intro h1 h2 h3
    rcases abs_lt.mp h3 with ⟨h3a, h3b⟩
    exact clsCore_parabolic h1 h2 h3a h3b
  · intro h1 h2
    exact clsCore_hyperbolic h1
      (not_nearIdentity_of_large_trace (normalizeUHP_det_eq_one h1) h2)
      (by linarith)
  · intro h1 h2
    exact clsCore_reflection (by linarith) h2
  · intro h1 h2
    exact clsCore_or_hyperbolic (by linarith) (by linarith)

/-- Witness for C2: the identity matrix has nonzero determinant, its
normalization is itself with positive determinant and passes the
near-identity test, so the first branch applies. -/
theorem classification_cases_witness :
    (Mat2.det ⟨1, 0, 0, 1⟩ ≠ 0) ∧
      classification ⟨1, 0, 0, 1⟩ = .ok "identity" := by
  have hdet : (⟨1, 0, 0, 1⟩ : Mat2).det = 1 := by norm_num [Mat2.det]
  have hnorm : normalizeUHP ⟨1, 0, 0, 1⟩ = ⟨1, 0, 0, 1⟩ :=
    normalizeUHP_of_abs_det_one (by rw [hdet]; norm_num)
  refine ⟨by rw [hdet]; norm_num, ?_⟩
  refine (classification_cases _ (by rw [hdet]; norm_num)).1 ?_ ?_
  · rw [hnorm, hdet]; norm_num
  · rw [hnorm]; unfold nearIdentity; norm_num [EPSILON]

theorem classification_id_eval : classification ⟨1, 0, 0, 1⟩ = .ok "identity" := by
  have hnorm : normalizeUHP ⟨1, 0, 0, 1⟩ = ⟨1, 0, 0, 1⟩ :=
    normalizeUHP_of_abs_det_one (by norm_num [Mat2.det])
  show clsCore (normalizeUHP _) = _
  rw [hnorm]
  exact clsCore_identity (by norm_num [Mat2.det])
    (by unfold nearIdentity; norm_num [EPSILON])

/-- C3: at the exact tie `tau = 2 - EPSILON` the strict inequalities of both
the `elliptic` and the `parabolic` branch fail, and the matrix
`[[2 - EPSILON, -1], [1, 0]]` (determinant 1) falls into the residual
`ValueError` branch of `classification`, so that branch is reachable. -/
theorem classification_boundary_tie_error :
    Mat2.det ⟨2 - EPSILON, -1, 1, 0⟩ ≠ 0 ∧
      classification ⟨2 - EPSILON, -1, 1, 0⟩ = .error .somethingWentWrong := by
  have hE := EPSILON_pos
  have hE1 := EPSILON_lt_one
  have hdet : (⟨2 - EPSILON, -1, 1, 0⟩ : Mat2).det = 1 := by
    simp [Mat2.det]
  have hnorm : normalizeUHP ⟨2 - EPSILON, -1, 1, 0⟩ = ⟨2 - EPSILON, -1, 1, 0⟩ :=
    normalizeUHP_of_abs_det_one (by rw [hdet]; norm_num)
  have htr : |Mat2.trace ⟨2 - EPSILON, -1, 1, 0⟩| = 2 - EPSILON := by
    simp only [Mat2.trace]
    rw [add_zero, abs_of_pos (by linarith)]
  refine ⟨by rw [hdet]; norm_num, ?_⟩
  show clsCore (normalizeUHP _) = _
  rw [hnorm]
  have hnear : ¬ nearIdentity ⟨2 - EPSILON, -1, 1, 0⟩ := by
    unfold nearIdentity
    simp only [EPSILON]
    norm_num
  simp only [clsCore]
  rw [if_pos (by rw [hdet]; norm_num), if_neg hnear,
    if_neg (by rw [htr]; linarith),
    if_neg (by rw [htr]; rintro ⟨h, -⟩; linarith),
    if_neg (by rw [htr]; linarith)]

theorem classification_neg_id_eval :
    classification (Mat2.smul (-1) ⟨1, 0, 0, 1⟩) = .ok "parabolic" := by
  have hM : Mat2.smul (-1) ⟨1, 0, 0, 1⟩ = ⟨-1, 0, 0, -1⟩ := by
    apply Mat2.ext_entries <;> norm_num [Mat2.smul]
  rw [hM]
  have hnorm : normalizeUHP ⟨-1, 0, 0, -1⟩ = ⟨-1, 0, 0, -1⟩ :=
    normalizeUHP_of_abs_det_one (by norm_num [Mat2.det])
  have htr : |Mat2.trace ⟨-1, 0, 0, -1⟩| = 2 := by
    simp only [Mat2.trace]
    norm_num
  show clsCore (normalizeUHP _) = _
  rw [hnorm]
  apply clsCore_parabolic
  · norm_num [Mat2.det]
  · unfold nearIdentity
    norm_num [EPSILON]
  · rw [htr]
    simp only [EPSILON]
    norm_num
  · rw [htr]
    simp only [EPSILON]
    norm_num

/-- C4 (counterexample): the identity matrix has nonzero determinant and
`-1` is a nonzero scalar, yet `classification` maps `-1 * I` to `parabolic`
and `I` to `identity`: the claimed invariance under every nonzero scalar
fails, because the near-identity test is not invariant under negation. -/
theorem classification_not_scale_invariant :
    Mat2.det ⟨1, 0, 0, 1⟩ ≠ 0 ∧ (-1 : ℝ) ≠ 0 ∧
      classification (Mat2.smul (-1) ⟨1, 0, 0, 1⟩) ≠ classification ⟨1, 0, 0, 1⟩ := by
  refine ⟨by norm_num [Mat2.det], by norm_num, ?_⟩
  rw [classification_neg_id_eval, classification_id_eval]
  intro h
  exact absurd (Except.ok.inj h) (by decide)

/-- C4 (amended): classification is invariant under scaling the matrix by any
positive scalar, since the normalization `A / sqrt(|det A|)` absorbs positive
scalars exactly. -/
theorem classification_smul_pos (A : Mat2) (hA : A.det ≠ 0) {t : ℝ}
    (ht : 0 < t) : classification (Mat2.smul t A) = classification A := by
  unfold classification
  congr 1
  unfold normalizeUHP
  rw [Mat2.det_smul, Mat2.smul_smul]
  have hs : 0 < Real.sqrt |A.det| := Real.sqrt_pos.mpr (abs_pos.mpr hA)
  have habs : |t ^ 2 * A.det| = t ^ 2 * |A.det| := by
    rw [abs_mul, abs_of_pos (by positivity)]
  rw [habs, Real.sqrt_mul (by positivity), Real.sqrt_sq ht.le]
  congr 1
  field_simp

/-- Witness for the amended C4: scaling the identity matrix by 2 leaves its
classification unchanged. -/
theorem classification_smul_pos_witness :
    classification (Mat2.smul 2 ⟨1, 0, 0, 1⟩) = classification ⟨1, 0, 0, 1⟩ :=
  classification_smul_pos _ (by norm_num [Mat2.det]) (by norm_num)

/-- Modelled from the spec: the host algebra system's `arccosh` (inverse
hyperbolic cosine), `log(x + sqrt(x^2 - 1))`; the source imports it from the
host's symbolic-function layer, which is out of scope. -/
noncomputable def arccosh (x : ℝ) : ℝ := Real.log (x + Real.sqrt (x ^ 2 - 1))

/-- Errors of `translation_length`: the `TypeError` for non-hyperbolic
classifications (line 757), or a `ValueError` escaping `classification`. -/
inductive TLError where
  | notHyperbolic
  | cls (e : ClsError)
deriving DecidableEq

/-- Embedding of `HyperbolicIsometryUHP.translation_length` (lines 733-757):
`d = sqrt(det^2)` and `tau = sqrt(trace(A/sqrt(d))^2)`; the value
`2*arccosh(tau/2)` is returned when the classification lies in the literal
string list `['hyperbolic', 'oriention-reversing hyperbolic']` (keeping the
source's misspelling of the second tag), otherwise a `TypeError` is raised;
an error escaping `classification` propagates. -/
noncomputable def translation_length (A : Mat2) : Except TLError ℝ :=
  let d := Real.sqrt (A.det ^ 2)
  let tau := Real.sqrt ((Mat2.smul (1 / Real.sqrt d) A).trace ^ 2)
  match classification A with
  | .error e => .error (.cls e)
  | .ok c =>
      if c = "hyperbolic" ∨ c = "oriention-reversing hyperbolic" then
        .ok (2 * arccosh (tau / 2))
      else .error .notHyperbolic

/-- C1: the matrix `[[3,0],[0,-1/3]]` is classified
`orientation-reversing hyperbolic`, yet `translation_length` raises the
not-hyperbolic `TypeError` on it, because the source's membership list
misspells the tag as `oriention-reversing hyperbolic`; on the claim's
concrete scenario `[[2,0],[0,1/2]]` (classified `hyperbolic`) the value
`2*arccosh(5/4)` is returned as claimed. -/
theorem translation_length_orientation_reversing_bug :
    classification ⟨3, 0, 0, -1/3⟩ = .ok "orientation-reversing hyperbolic" ∧
    translation_length ⟨3, 0, 0, -1/3⟩ = .error .notHyperbolic ∧
    classification ⟨2, 0, 0, 1/2⟩ = .ok "hyperbolic" ∧
    translation_length ⟨2, 0, 0, 1/2⟩ = .ok (2 * arccosh (5 / 4)) := by
  have hcls1 : classification ⟨3, 0, 0, -1/3⟩ =
      .ok "orientation-reversing hyperbolic" := by
    have hdet : (⟨3, 0, 0, -1/3⟩ : Mat2).det = -1 := by norm_num [Mat2.det]
    have hnorm := normalizeUHP_of_abs_det_one (A := ⟨3, 0, 0, -1/3⟩)
      (by rw [hdet]; norm_num)
    show clsCore (normalizeUHP _) = _
    rw [hnorm]
    apply clsCore_or_hyperbolic
    · rw [hdet]; norm_num
    · have h : |Mat2.trace ⟨3, 0, 0, -1/3⟩| = 8/3 := by
        simp only [Mat2.trace]
        rw [abs_of_pos (by norm_num)]
        norm_num
      rw [h]
      simp only [EPSILON]
      norm_num
  have hcls2 : classification ⟨2, 0, 0, 1/2⟩ = .ok "hyperbolic" := by
    have hdet : (⟨2, 0, 0, 1/2⟩ : Mat2).det = 1 := by norm_num [Mat2.det]
    have hnorm := normalizeUHP_of_abs_det_one (A := ⟨2, 0, 0, 1/2⟩)
      (by rw [hdet]; norm_num)
    show clsCore (normalizeUHP _) = _
    rw [hnorm]
    apply clsCore_hyperbolic
    · rw [hdet]; norm_num
    · unfold nearIdentity
      simp only [EPSILON]
      norm_num
    · have h : |Mat2.trace ⟨2, 0, 0, 1/2⟩| = 5/2 := by
        simp only [Mat2.trace]
        rw [abs_of_pos (by norm_num)]
        norm_num
      rw [h]
      simp only [EPSILON]
      norm_num
  refine ⟨hcls1, ?_, hcls2, ?_⟩
  · simp only [translation_length, hcls1]
    rw [if_neg (by decide)]
  · have hdet : (⟨2, 0, 0, 1/2⟩ : Mat2).det = 1 := by norm_num [Mat2.det]
    have h1 : Real.sqrt ((Mat2.det ⟨2, 0, 0, 1/2⟩) ^ 2) = 1 := by
      rw [hdet, one_pow, Real.sqrt_one]
    have h2 : Mat2.smul (1 / Real.sqrt (Real.sqrt ((Mat2.det ⟨2, 0, 0, 1/2⟩) ^ 2)))
        ⟨2, 0, 0, 1/2⟩ = ⟨2, 0, 0, 1/2⟩ := by
      rw [h1, Real.sqrt_one, div_one, Mat2.smul_one]
    have h3 : Real.sqrt ((Mat2.trace ⟨2, 0, 0, 1/2⟩) ^ 2) = 5/2 := by
      have ht : Mat2.trace ⟨2, 0, 0, 1/2⟩ = 5/2 := by norm_num [Mat2.trace]
      rw [ht, Real.sqrt_sq (by norm_num)]
    simp only [translation_length, hcls2]
    rw [if_pos (Or.inl trivial), h2, h3]
    norm_num

/-- Boundary/interior point values produced by the UHP fixed-point formulas:
either a complex number or the distinguished `infinity` sentinel. -/
inductive UPoint where
  | pt (z : ℂ)
  | infty

/-- Modelled from the spec: the host system's square root applied to complex
values (the `elliptic` discriminant is purely imaginary); the principal
branch `z ^ (1/2)`. -/
noncomputable def csqrt (z : ℂ) : ℂ := z ^ ((1 : ℂ) / 2)

theorem csqrt_ofReal_nonneg {x : ℝ} (hx : 0 ≤ x) :
    csqrt (x : ℂ) = (Real.sqrt x : ℂ) := by
  unfold csqrt
  rw [show ((1 : ℂ) / 2) = (((1 / 2 : ℝ) : ℝ) : ℂ) by push_cast; ring]
  rw [← Complex.ofReal_cpow hx, ← Real.sqrt_eq_rpow]

/-- Imaginary part of a boundary value, `imag(k)` with the sentinel
`infinity` counted as imaginary part `0`. -/
noncomputable def uim : UPoint → ℝ
  | .pt z => z.im
  | .infty => 0

/-- Modelled from the spec: the eigenvector fallback branch of
`fixed_point_set` (lines 810-827). The host `eigenvectors_right`
decomposition is an out-of-scope dependency; per the spec, each right
eigenvector `(p, q)` yields the boundary value `infinity` when `q = 0` and
`p/q` otherwise, keeping only values with nonnegative imaginary part. The
decomposition is realized in closed form: in this branch the matrix has
negative determinant, hence two distinct real eigenvalues
`(trace ± sqrt(trace^2 - 4*det)) / 2`. -/
noncomputable def eigenBoundaryPoints (M : Mat2) : List UPoint :=
  let disc := Real.sqrt (M.trace ^ 2 - 4 * M.det)
  let ev : ℝ → ℝ × ℝ := fun l =>
    if M.b ≠ 0 then (M.b, l - M.a)
    else if M.c ≠ 0 then (l - M.d, M.c)
    else if l = M.a then (1, 0) else (0, 1)
  let bd : ℝ × ℝ → UPoint := fun v =>
    if v.2 = 0 then .infty else .pt ((v.1 / v.2 : ℝ) : ℂ)
  let pts := [bd (ev ((M.trace + disc) / 2)), bd (ev ((M.trace - disc) / 2))]
  pts.filter fun k => decide (0 ≤ uim k)

/-- Errors of `fixed_point_set`: the `ValueError` for the identity isometry
(lines 788-790), or an error escaping `classification`. -/
inductive FPError where
  | undefinedFixedPoint
  | cls (e : ClsError)
deriving DecidableEq

/-- Embedding of `HyperbolicIsometryUHP.fixed_point_set` (lines 759-827):
`d = sqrt(det^2)`, `M = matrix/sqrt(d)`, `tau = trace(M)^2`, then branches on
the classification; `identity` raises, `parabolic` returns one point
(infinity when `|M[1,0]| < EPSILON`), `elliptic` one interior point via the
signed complex discriminant, `hyperbolic` two boundary points (or
`[b/(d-a), infinity]` when `M[1,0] == 0`), and the remaining
orientation-reversing classes fall to the eigenvector branch. -/
noncomputable def fixed_point_set (A : Mat2) : Except FPError (List UPoint) :=
  let d0 := Real.sqrt (A.det ^ 2)
  let M := Mat2.smul (1 / Real.sqrt d0) A
  let tau : ℝ := M.trace ^ 2
  match classification A with
  | .error e => .error (.cls e)
  | .ok cls =>
      if cls = "identity" then .error .undefinedFixedPoint
      else if cls = "parabolic" then
        if |M.c| < EPSILON then .ok [.infty]
        else .ok [.pt (((M.a - M.d) / (2 * M.c) : ℝ) : ℂ)]
      else if cls = "elliptic" then
        let d2 := csqrt ((tau : ℂ) - 4)
        .ok [.pt (((M.a : ℂ) - M.d + (Real.sign M.c : ℂ) * d2) / (2 * M.c))]
      else if cls = "hyperbolic" then
        if M.c ≠ 0 then
          let d2 := csqrt ((tau : ℂ) - 4)
          .ok [.pt (((M.a : ℂ) - M.d + d2) / (2 * M.c)),
            .pt (((M.a : ℂ) - M.d - d2) / (2 * M.c))]
        else .ok [.pt ((M.b / (M.d - M.a) : ℝ) : ℂ), .infty]
      else .ok (eigenBoundaryPoints M)

theorem fps_normalize_eq (A : Mat2) :
    Mat2.smul (1 / Real.sqrt (Real.sqrt (A.det ^ 2))) A = normalizeUHP A := by
  unfold normalizeUHP
  rw [Real.sqrt_sq_eq_abs]

/-- C8: a matrix whose classification is `identity` makes `fixed_point_set`
raise the ValueError that the identity fixes the entire hyperbolic plane,
rather than return a list of points. -/
theorem fixed_point_set_identity_error (A : Mat2)
    (h : classification A = .ok "identity") :
    fixed_point_set A = .error .undefinedFixedPoint := by
  simp only [fixed_point_set, h]
  rw [if_pos trivial]

/-- Witness for C8: the identity matrix itself. -/
theorem fixed_point_set_identity_error_witness :
    fixed_point_set ⟨1, 0, 0, 1⟩ = .error .undefinedFixedPoint :=
  fixed_point_set_identity_error _ classification_id_eval

theorem classification_hyperbolic_inv {A : Mat2}
    (h : classification A = .ok "hyperbolic") :
    0 < (normalizeUHP A).det ∧ EPSILON < |(normalizeUHP A).trace| - 2 := by
  revert h
  show clsCore (normalizeUHP A) = _ → _
  generalize normalizeUHP A = M
  simp only [clsCore]
  intro h
  by_cases h1 : 0 < M.det
  · rw [if_pos h1] at h
    by_cases h2 : nearIdentity M
    · rw [if_pos h2] at h
      exact absurd (Except.ok.inj h) (by decide)
    · rw [if_neg h2] at h
      by_cases h3 : |M.trace| - 2 < -EPSILON
      · rw [if_pos h3] at h
        exact absurd (Except.ok.inj h) (by decide)
      · rw [if_neg h3] at h
        by_cases h4 : |M.trace| - 2 > -EPSILON ∧ |M.trace| - 2 < EPSILON
        · rw [if_pos h4] at h
          exact absurd (Except.ok.inj h) (by decide)
        · rw [if_neg h4] at h
          by_cases h5 : |M.trace| - 2 > EPSILON
          · exact ⟨h1, h5⟩
          · rw [if_neg h5] at h
            exact Except.noConfusion h
  · rw [if_neg h1] at h
    by_cases h6 : |M.trace| < EPSILON
    · rw [if_pos h6] at h
      exact absurd (Except.ok.inj h) (by decide)
    · rw [if_neg h6] at h
      exact absurd (Except.ok.inj h) (by decide)

/-- C5: for a matrix classified `hyperbolic`, with normalized matrix
`M = [[a,b],[c,d]]` and `tau = |trace M|`: when `c` is nonzero,
`fixed_point_set` returns exactly the two boundary points
`(a - d + sqrt(tau^2 - 4))/(2c)` and `(a - d - sqrt(tau^2 - 4))/(2c)` in
that order, and when `c = 0` it returns exactly `[b/(d - a), infinity]`. -/
theorem fixed_point_set_hyperbolic (A : Mat2)
    (h : classification A = .ok "hyperbolic") :
    ((normalizeUHP A).c ≠ 0 →
      fixed_point_set A = .ok
        [UPoint.pt ((((normalizeUHP A).a : ℂ) - ((normalizeUHP A).d : ℂ) +
            ((Real.sqrt (|(normalizeUHP A).trace| ^ 2 - 4) : ℝ) : ℂ)) /
            (2 * ((normalizeUHP A).c : ℂ))),
          UPoint.pt ((((normalizeUHP A).a : ℂ) - ((normalizeUHP A).d : ℂ) -
            ((Real.sqrt (|(normalizeUHP A).trace| ^ 2 - 4) : ℝ) : ℂ)) /
            (2 * ((normalizeUHP A).c : ℂ)))]) ∧
    ((normalizeUHP A).c = 0 →
      fixed_point_set A = .ok
        [UPoint.pt ((((normalizeUHP A).b /
            ((normalizeUHP A).d - (normalizeUHP A).a) : ℝ)) : ℂ),
          UPoint.infty]) := by
  obtain ⟨h1, h5⟩ := classification_hyperbolic_inv h
  have hE := EPSILON_pos
  have htau : (4 : ℝ) < (normalizeUHP A).trace ^ 2 := by
    have h2 : 2 < |(normalizeUHP A).trace| := by linarith
    nlinarith [sq_abs (normalizeUHP A).trace, abs_nonneg (normalizeUHP A).trace]
  have hcs : csqrt ((((normalizeUHP A).trace ^ 2 : ℝ) : ℂ) - 4) =
      ((Real.sqrt (|(normalizeUHP A).trace| ^ 2 - 4) : ℝ) : ℂ) := by
    rw [show ((((normalizeUHP A).trace ^ 2 : ℝ) : ℂ) - 4) =
        ((((normalizeUHP A).trace ^ 2 - 4 : ℝ)) : ℂ) by push_cast; ring]
    rw [csqrt_ofReal_nonneg (by linarith)]
    rw [sq_abs]
  constructor <;> intro hc0
  · simp only [fixed_point_set, h, fps_normalize_eq]
    rw [if_neg (by decide : ¬("hyperbolic" = "identity")),
      if_neg (by decide : ¬("hyperbolic" = "parabolic")),
      if_neg (by decide : ¬("hyperbolic" = "elliptic")),
      if_pos trivial, if_pos hc0, hcs]
  · simp only [fixed_point_set, h, fps_normalize_eq]
    rw [if_neg (by decide : ¬("hyperbolic" = "identity")),
      if_neg (by decide : ¬("hyperbolic" = "parabolic")),
      if_neg (by decide : ¬("hyperbolic" = "elliptic")),
      if_pos trivial, if_neg (not_not_intro hc0)]

/-- Witness for C5: the hyperbolic matrix `[[2,0],[0,1/2]]` has `c = 0`; its
fixed point set is `[0, infinity]`. -/
theorem fixed_point_set_hyperbolic_witness :
    fixed_point_set ⟨2, 0, 0, 1/2⟩ = .ok [UPoint.pt 0, UPoint.infty] := by
  have hdet : (⟨2, 0, 0, 1/2⟩ : Mat2).det = 1 := by norm_num [Mat2.det]
  have hn : normalizeUHP ⟨2, 0, 0, 1/2⟩ = ⟨2, 0, 0, 1/2⟩ :=
    normalizeUHP_of_abs_det_one (by rw [hdet]; norm_num)
  have hcls : classification ⟨2, 0, 0, 1/2⟩ = .ok "hyperbolic" := by
    show clsCore (normalizeUHP _) = _
    rw [hn]
    apply clsCore_hyperbolic
    · rw [hdet]; norm_num
    · unfold nearIdentity
      simp only [EPSILON]
      norm_num
    · have ht : |Mat2.trace ⟨2, 0, 0, 1/2⟩| = 5/2 := by
        simp only [Mat2.trace]
        rw [abs_of_pos (by norm_num)]
        norm_num
      rw [ht]
      simp only [EPSILON]
      norm_num
  have hc0 : (normalizeUHP ⟨2, 0, 0, 1/2⟩).c = 0 := by rw [hn]
  have hres := (fixed_point_set_hyperbolic _ hcls).2 hc0
  rw [hn] at hres
  rw [hres]
  norm_num

/-- Coordinate models of hyperbolic space (`IsometryModel`): upper half
plane, Poincare disk, Klein model, hyperboloid model. -/
inductive Model where
  | UHP
  | PD
  | KM
  | HM
deriving DecidableEq

/-- Short name tag of a model (`short_name()`, hence `model_name()`). -/
def modelName : Model → String
  | .UHP => "UHP"
  | .PD => "PD"
  | .KM => "KM"
  | .HM => "HM"

/-- Modelled from the spec: the per-model `isometry_group_is_projective`
flag lives in `hyperbolic_model.py`, which is not among the sources; the
2x2 models and the Klein model use matrices up to global sign. The source's
LaTeX doctest (lines 140-152) witnesses UHP as projective and HM as not. -/
def isProjective : Model → Bool
  | .UHP => true
  | .PD => true
  | .KM => true
  | .HM => false

theorem modelName_injective : Function.Injective modelName := by
  intro m n h
  cases m <;> cases n <;> first | rfl | exact absurd h (by decide)

/-- A hyperbolic isometry: a model tag together with the matrix validated at
construction time; the matrix type stays generic, as in the dynamically
typed source, where each model supplies its own matrix group. -/
structure Iso (α : Type) where
  model : Model
  matrix : α

/-- Error raised by `__mul__` (lines 221-223, `TypeError`) when the two
operands' model names differ. -/
inductive MulError where
  | modelMismatch
deriving DecidableEq

/-- Possible right operands of `HyperbolicIsometry.__mul__`: another
isometry, a point, a geodesic (each carrying its model), or any other value
that still answers `model_name()` (the fallback case). -/
inductive Operand (α P : Type) where
  | iso (B : Iso α)
  | point (m : Model) (p : P)
  | geodesic (m : Model) (s e : P)
  | other (name : String)

/-- The `model_name()` of an operand. -/
def operandModelName {α P : Type} : Operand α P → String
  | .iso B => modelName B.model
  | .point m _ => modelName m
  | .geodesic m _ _ => modelName m
  | .other s => s

/-- Values `__mul__` can produce when it does not raise. -/
inductive MulResult (α P : Type) where
  | iso (B : Iso α)
  | point (m : Model) (p : P)
  | geodesic (m : Model) (s e : P)

/-- Embedding of `HyperbolicIsometry.__mul__` (lines 191-233). `act` models
the model's `isometry_act_on_point` (an out-of-scope host method). Model
names are compared first; an isometry operand yields the matrix product
wrapped in `self`'s model, a point operand applies the action, a geodesic
operand maps both endpoints, and any other operand falls off the end of the
method: the `NotImplementedError` of line 232 is constructed but never
raised, so Python returns `None` — hence `.ok none`. -/
def isoMul {α P : Type} [Mul α] (act : α → P → P) (A : Iso α)
    (o : Operand α P) : Except MulError (Option (MulResult α P)) :=
  if modelName A.model ≠ operandModelName o then .error .modelMismatch
  else match o with
    | .iso B => .ok (some (.iso ⟨A.model, A.matrix * B.matrix⟩))
    | .point _ p => .ok (some (.point A.model (act A.matrix p)))
    | .geodesic _ s e =>
        .ok (some (.geodesic A.model (act A.matrix s) (act A.matrix e)))
    | .other _ => .ok none

/-- C6: composing two isometries of different models raises the
model-mismatch `TypeError`, while composing two isometries of one model
yields the isometry of that model whose matrix is exactly the matrix
product of the two matrices (so in particular equal up to sign when the
model is projective). -/
theorem isoMul_iso {α P : Type} [Mul α] (act : α → P → P) (A B : Iso α) :
    (A.model ≠ B.model →
      isoMul act A (.iso B) = .error .modelMismatch) ∧
    (A.model = B.model →
      isoMul act A (.iso B) =
        .ok (some (.iso ⟨A.model, A.matrix * B.matrix⟩))) := by
  constructor
  · intro hne
    have hn : modelName A.model ≠ operandModelName (Operand.iso (P := P) B) :=
      fun h => hne (modelName_injective h)
    unfold isoMul
    rw [if_pos hn]
  · intro heq
    have hn : ¬ modelName A.model ≠ operandModelName (Operand.iso (P := P) B) := by
      simp [operandModelName, heq]
    unfold isoMul
    rw [if_neg hn]

/-- Witness for C6: over matrix type `ℤ` with a trivial point action, a UHP
and a PD isometry do not compose, and two UHP isometries compose to the
matrix product. -/
theorem isoMul_iso_witness :
    isoMul (fun (_ : ℤ) (_ : Unit) => ()) ⟨Model.UHP, (2 : ℤ)⟩
        (.iso ⟨Model.PD, 3⟩) = .error .modelMismatch ∧
      isoMul (fun (_ : ℤ) (_ : Unit) => ()) ⟨Model.UHP, (2 : ℤ)⟩
        (.iso ⟨Model.UHP, 5⟩) = .ok (some (.iso ⟨Model.UHP, (2 : ℤ) * 5⟩)) :=
  ⟨(isoMul_iso _ _ _).1 (by decide), (isoMul_iso _ _ _).2 rfl⟩

/-- C10: an operand that is neither an isometry nor a point nor a geodesic
but whose model name equals `self`'s model name makes `__mul__` fall past
all `isinstance` branches into the fallback that builds — but does not
raise — a `NotImplementedError`; the call returns `None` and raises
nothing. -/
theorem isoMul_other_returns_none {α P : Type} [Mul α] (act : α → P → P)
    (A : Iso α) (s : String) (hs : s = modelName A.model) :
    isoMul act A (.other s) = .ok none := by
  unfold isoMul
  rw [if_neg (by simp [operandModelName, hs])]

/-- Witness for C10: an `other` operand carrying the name `UHP` against a
UHP isometry. -/
theorem isoMul_other_returns_none_witness :
    isoMul (fun (_ : ℤ) (_ : Unit) => ()) ⟨Model.UHP, (7 : ℤ)⟩
      (.other "UHP") = .ok none :=
  isoMul_other_returns_none _ _ _ rfl

/-- Embedding of `HyperbolicIsometry.__eq__` (lines 159-176). `mabs` models
the host's `abs` applied to a matrix (an out-of-scope dependency):
`pos_matrix` and `neg_matrix` are closeness of the two matrices, resp. of
one matrix and the other's negative, below `EPSILON`; identity of the
singleton `domain()` objects is model-tag equality. -/
noncomputable def isoEq {α : Type} [AddGroup α] (mabs : α → ℝ)
    (A B : Iso α) : Prop :=
  let pos_matrix := mabs (A.matrix - B.matrix) < EPSILON
  let neg_matrix := mabs (A.matrix + B.matrix) < EPSILON
  if isProjective A.model then A.model = B.model ∧ (pos_matrix ∨ neg_matrix)
  else A.model = B.model ∧ pos_matrix

/-- C7: two isometries are equal exactly when they live in the same model
and either their matrices are within `EPSILON` of each other or the model
is projective and the first matrix is within `EPSILON` of the negation of
the second. -/
theorem isoEq_iff {α : Type} [AddGroup α] (mabs : α → ℝ) (A B : Iso α) :
    isoEq mabs A B ↔
      A.model = B.model ∧ (mabs (A.matrix - B.matrix) < EPSILON ∨
        (isProjective A.model = true ∧
          mabs (A.matrix - -B.matrix) < EPSILON)) := by
  simp only [isoEq]
  rw [sub_neg_eq_add]
  cases hp : isProjective A.model
  · simp only [hp, Bool.false_eq_true, if_false, false_and, or_false]
  · simp only [hp, if_true, true_and]

/-- A Lie algebra as `is_abelian` sees it: a generating family (`none` when
the generating set is not finitely enumerable, i.e. not in
`FiniteEnumeratedSets()`, else its finite enumeration), the bracket
operation, and the zero element; the surrounding algebra/parent framework
is an out-of-scope dependency. -/
structure LieAlg (α : Type) where
  gens : Option (List α)
  bracket : α → α → α
  zero : α

/-- Error raised by `is_abelian` (line 424): `NotImplementedError("infinite
number of generators")`. -/
inductive LieError where
  | infiniteGenerators
deriving DecidableEq

/-- Embedding of `LieAlgebras.ParentMethods.is_abelian` (lines 396-426): a
non-finitely-enumerable generating set is rejected; otherwise the result is
`all(x._bracket_(y) == zero for x in G for y in G)`. -/
def is_abelian {α : Type} [DecidableEq α] (L : LieAlg α) :
    Except LieError Bool :=
  match L.gens with
  | none => .error .infiniteGenerators
  | some G => .ok (G.all fun x => G.all fun y => L.bracket x y == L.zero)

/-- C9: `is_abelian` fails with the infinite-generators error when the
generating set is not finitely enumerable, and otherwise returns `true` iff
the bracket of every ordered pair of generators is zero. -/
theorem is_abelian_spec {α : Type} [DecidableEq α] (L : LieAlg α) :
    (L.gens = none → is_abelian L = .error .infiniteGenerators) ∧
    (∀ G, L.gens = some G →
      (is_abelian L = .ok true ↔
        ∀ x ∈ G, ∀ y ∈ G, L.bracket x y = L.zero)) := by
  constructor
  · intro h
    unfold is_abelian
    rw [h]
  · intro G h
    unfold is_abelian
    rw [h]
    simp [List.all_eq_true]

/-- Witness for C9: over `ℤ` with the commutator bracket, the algebra with
non-enumerable generators errors, and the one generated by `[0, 1]` is
abelian. -/
theorem is_abelian_spec_witness :
    is_abelian ⟨none, fun (x y : ℤ) => x * y - y * x, 0⟩ =
        .error .infiniteGenerators ∧
      is_abelian ⟨some [0, 1], fun (x y : ℤ) => x * y - y * x, 0⟩ =
        .ok true := by
  constructor
  · exact (is_abelian_spec _).1 rfl
  · exact ((is_abelian_spec _).2 [0, 1] rfl).mpr (by decide)

end Sage
